import Mathlib

/-!
Verification of the offline region pack manager of this repository: a shallow
embedding of the metadata codec, size estimator, pack catalog
(`app/(tabs)/explore.tsx`, `fetchPacks` and `inspectPackForSize`) and the
download coordinator (home screen: `handleDownload`, `onProgress`, `onError`),
together with proofs about the frozen behavioural claims.

Modelling conventions:
* JS values are modelled by `JsPrim`/`JsValue`.  JSON numbers are integers,
  arrays are not represented, and object fields hold primitive values — the
  program only ever stores flat records, so nested or fractional input is
  modelled as a parse failure.  Object field lists are kept in JS enumeration
  order and JS objects have no duplicate keys.
* `Option` models `undefined` (absent properties); a `none` result of
  `parseJson` / `parseIntJS` models a thrown `SyntaxError` / `NaN`.
* The source files are ES modules and hence run in strict mode; the only
  reachable exceptions inside the decode `try` blocks are `JSON.parse`
  failures and property access on a parsed `null`, both caught by the code.
  The embedding makes those failure paths explicit `Option` branches, so
  every decode function is total by construction.
-/

namespace Hiker

/-- A primitive JS value (`null`, booleans, numbers as integers, strings). -/
inductive JsPrim where
  | null
  | bool (b : Bool)
  | num (n : Int)
  | str (s : String)
deriving DecidableEq, Repr

/-- A JS value as handled by the pack manager: a primitive or a flat object. -/
inductive JsValue where
  | prim (p : JsPrim)
  | obj (fields : List (String × JsPrim))
deriving DecidableEq, Repr

/-- JS truthiness of a primitive. -/
def truthyPrim : JsPrim → Bool
  | .null => false
  | .bool b => b
  | .num n => n != 0
  | .str s => s != ""

/-- JS truthiness of a value (objects are always truthy). -/
def JsValue.truthy : JsValue → Bool
  | .prim p => truthyPrim p
  | .obj _ => true

/-- JS string coercion of a primitive (as in template literals and `+=`). -/
def jsPrimToString : JsPrim → String
  | .null => "null"
  | .bool b => if b then "true" else "false"
  | .num n => toString n
  | .str s => s

/-- JS string coercion of a value. -/
def jsToString : JsValue → String
  | .prim p => jsPrimToString p
  | .obj _ => "[object Object]"

/-- JS string coercion of a possibly-`undefined` value (`undefined` prints as
    the word "undefined" in a template literal). -/
def jsToStringO : Option JsValue → String
  | none => "undefined"
  | some v => jsToString v

/-- JS truthiness of a possibly-`undefined` value. -/
def truthyO : Option JsValue → Bool
  | none => false
  | some v => v.truthy

/-- JS truthiness of a possibly-`undefined` primitive (field lookup result). -/
def truthyF : Option JsPrim → Bool
  | none => false
  | some p => truthyPrim p

/-- Property read on a value: `undefined` on primitives (callers never read a
    property of `null` without the code catching the resulting TypeError). -/
def JsValue.getField : JsValue → String → Option JsPrim
  | .prim _, _ => none
  | .obj fs, k => fs.lookup k

/-- JS property assignment on an object's field list: an existing key keeps its
    position and gets the new value, a fresh key is appended. -/
def setField : List (String × JsPrim) → String → JsPrim → List (String × JsPrim)
  | [], k, v => [(k, v)]
  | (k', v') :: rest, k, v =>
      if k' == k then (k', v) :: rest else (k', v') :: setField rest k v

/-- The whitespace characters skipped by `parseInt` and JSON. -/
def isWsChar (c : Char) : Bool :=
  c == ' ' || c == '\t' || c == '\n' || c == '\r'

/-- Digit value of a character in the given radix (10 or 16), if any. -/
def digitVal? (radix : Nat) (c : Char) : Option Nat :=
  if '0' ≤ c ∧ c ≤ '9' ∧ c.toNat - '0'.toNat < radix then some (c.toNat - '0'.toNat)
  else if radix == 16 ∧ 'a' ≤ c ∧ c ≤ 'f' then some (c.toNat - 'a'.toNat + 10)
  else if radix == 16 ∧ 'A' ≤ c ∧ c ≤ 'F' then some (c.toNat - 'A'.toNat + 10)
  else none

/-- JavaScript `parseInt(s)` with auto-detected radix (a `0x` prefix selects 16,
    anything else 10): skip leading whitespace, read an optional sign, then as
    many digits as possible; no digits at all gives `NaN`, modelled as `none`.
    Doubles' precision loss is not modelled — results are exact integers. -/
def parseIntJS (s : String) : Option Int :=
  let cs := s.toList.dropWhile isWsChar
  let sgnRest : Int × List Char :=
    match cs with
    | '-' :: rest => (-1, rest)
    | '+' :: rest => (1, rest)
    | _ => (1, cs)
  let radixRest : Nat × List Char :=
    match sgnRest.2 with
    | '0' :: 'x' :: rest => (16, rest)
    | '0' :: 'X' :: rest => (16, rest)
    | _ => (10, sgnRest.2)
  let ds := radixRest.2.takeWhile (fun c => (digitVal? radixRest.1 c).isSome)
  if ds.isEmpty then none
  else some (sgnRest.1 *
    (ds.foldl (fun a c => a * (radixRest.1 : Int) + ((digitVal? radixRest.1 c).getD 0)) 0))

/-- Drop leading JSON whitespace. -/
def skipWsL (cs : List Char) : List Char := cs.dropWhile isWsChar

/-- Parse the body of a JSON string literal (the opening quote already
    consumed), decoding escape sequences; returns the decoded characters and
    the remainder after the closing quote.  Unescaped control characters are
    rejected, as in `JSON.parse`. -/
def parseStrBody : List Char → Option (List Char × List Char)
  | [] => none
  | '"' :: rest => some ([], rest)
  | '\\' :: esc =>
    match esc with
    | '"' :: rest => (parseStrBody rest).map (fun r => ('"' :: r.1, r.2))
    | '\\' :: rest => (parseStrBody rest).map (fun r => ('\\' :: r.1, r.2))
    | '/' :: rest => (parseStrBody rest).map (fun r => ('/' :: r.1, r.2))
    | 'b' :: rest => (parseStrBody rest).map (fun r => ('\x08' :: r.1, r.2))
    | 'f' :: rest => (parseStrBody rest).map (fun r => ('\x0c' :: r.1, r.2))
    | 'n' :: rest => (parseStrBody rest).map (fun r => ('\n' :: r.1, r.2))
    | 'r' :: rest => (parseStrBody rest).map (fun r => ('\r' :: r.1, r.2))
    | 't' :: rest => (parseStrBody rest).map (fun r => ('\t' :: r.1, r.2))
    | 'u' :: a :: b :: c :: d :: rest =>
      match digitVal? 16 a, digitVal? 16 b, digitVal? 16 c, digitVal? 16 d with
      | some x, some y, some z, some w =>
        (parseStrBody rest).map
          (fun r => (Char.ofNat (((x * 16 + y) * 16 + z) * 16 + w) :: r.1, r.2))
      | _, _, _, _ => none
    | _ => none
  | c :: rest =>
    if c.toNat < 32 then none
    else (parseStrBody rest).map (fun r => (c :: r.1, r.2))

/-- Decimal digits to an integer. -/
def digitsToInt (ds : List Char) : Int :=
  ds.foldl (fun a c => a * 10 + ((c.toNat : Int) - ('0'.toNat : Int))) 0

/-- Parse a JSON number.  The model restricts JSON numbers to integers: a
    fraction or exponent part makes the parse fail (the program never stores
    non-integral numbers). -/
def parseJsonNumber (cs : List Char) : Option (Int × List Char) :=
  let sgnRest : Int × List Char :=
    match cs with
    | '-' :: rest => (-1, rest)
    | _ => (1, cs)
  match sgnRest.2 with
  | '0' :: rest =>
    match rest with
    | c :: _ =>
      if c.isDigit || c == '.' || c == 'e' || c == 'E' then none else some (0, rest)
    | [] => some (0, [])
  | c :: _ =>
    if c.isDigit then
      let ds := sgnRest.2.takeWhile Char.isDigit
      let rest := sgnRest.2.dropWhile Char.isDigit
      match rest with
      | r :: _ =>
        if r == '.' || r == 'e' || r == 'E' then none
        else some (sgnRest.1 * digitsToInt ds, rest)
      | [] => some (sgnRest.1 * digitsToInt ds, [])
    else none
  | [] => none

/-- Parse a primitive JSON value. -/
def parsePrimVal : List Char → Option (JsPrim × List Char)
  | 'n' :: 'u' :: 'l' :: 'l' :: rest => some (.null, rest)
  | 't' :: 'r' :: 'u' :: 'e' :: rest => some (.bool true, rest)
  | 'f' :: 'a' :: 'l' :: 's' :: 'e' :: rest => some (.bool false, rest)
  | '"' :: rest => (parseStrBody rest).map (fun r => (.str (String.mk r.1), r.2))
  | cs => (parseJsonNumber cs).map (fun r => (.num r.1, r.2))

/-- Parse the members of a JSON object after the opening brace (at least one
    member present).  Member values are primitives in this model; duplicate
    keys keep the first position and the last value, as JS objects do.  The
    fuel starts at one more than the remaining length, which every iteration
    strictly decreases, so it never runs out on any input. -/
def parseMembers : Nat → List (String × JsPrim) → List Char →
    Option (List (String × JsPrim) × List Char)
  | 0, _, _ => none
  | fuel + 1, acc, cs =>
    match skipWsL cs with
    | '"' :: rest =>
      match parseStrBody rest with
      | none => none
      | some (key, rest1) =>
        match skipWsL rest1 with
        | ':' :: rest2 =>
          match parsePrimVal (skipWsL rest2) with
          | none => none
          | some (v, rest3) =>
            let acc1 := setField acc (String.mk key) v
            match skipWsL rest3 with
            | ',' :: rest4 => parseMembers fuel acc1 rest4
            | '\x7d' :: rest4 => some (acc1, rest4)
            | _ => none
        | _ => none
    | _ => none

/-- Parse one JSON value (an object of primitives, or a primitive). -/
def parseJsonValue (cs : List Char) : Option (JsValue × List Char) :=
  match skipWsL cs with
  | '\x7b' :: rest =>
    match skipWsL rest with
    | '\x7d' :: rest1 => some (.obj [], rest1)
    | _ => (parseMembers (rest.length + 1) [] rest).map (fun r => (.obj r.1, r.2))
  | cs1 => (parsePrimVal cs1).map (fun r => (.prim r.1, r.2))

/-- Model of JS `JSON.parse`; `none` models a thrown `SyntaxError`. -/
def parseJson (s : String) : Option JsValue :=
  match parseJsonValue s.toList with
  | some (v, rest) => if (skipWsL rest).isEmpty then some v else none
  | none => none

/-- Lowercase hex digit, as produced by `JSON.stringify` escapes. -/
def hexDigit (n : Nat) : String :=
  String.singleton (if n < 10 then Char.ofNat ('0'.toNat + n) else Char.ofNat ('a'.toNat + n - 10))

/-- `JSON.stringify` escaping of one character inside a string literal. -/
def escapeChar (c : Char) : String :=
  if c == '"' then "\\\""
  else if c == '\\' then "\\\\"
  else if c == '\x08' then "\\b"
  else if c == '\x0c' then "\\f"
  else if c == '\n' then "\\n"
  else if c == '\r' then "\\r"
  else if c == '\t' then "\\t"
  else if c.toNat < 32 then "\\u00" ++ hexDigit (c.toNat / 16) ++ hexDigit (c.toNat % 16)
  else String.singleton c

/-- A `JSON.stringify` string literal. -/
def quoteStr (s : String) : String :=
  "\"" ++ String.join (s.toList.map escapeChar) ++ "\""

/-- `JSON.stringify` of a primitive. -/
def stringifyPrim : JsPrim → String
  | .null => "null"
  | .bool b => if b then "true" else "false"
  | .num n => toString n
  | .str s => quoteStr s

/-- `JSON.stringify` of a value (compact form, as called without spacing). -/
def stringifyJson : JsValue → String
  | .prim p => stringifyPrim p
  | .obj fs =>
    "\x7b" ++
      String.intercalate "," (fs.map (fun f => quoteStr f.1 ++ ":" ++ stringifyPrim f.2)) ++
      "\x7d"

example : parseJson "\x7b\"name\":\"A\",\"downloaded_at\":17\x7d" =
    some (.obj [("name", .str "A"), ("downloaded_at", .num 17)]) := by decide
example : parseJson "" = none := by decide
example : parseJson "not json" = none := by decide
example : parseJson "\x7b\x7d" = some (.obj []) := by decide
example : parseJson "null" = some (.prim .null) := by decide
example : parseIntJS "10" = some 10 := by decide
example : parseIntJS "-1" = some (-1) := by decide
example : parseIntJS "abc" = none := by decide
example : parseIntJS "1700000000000" = some 1700000000000 := by decide
example : stringifyJson (.obj [("0", .str "\x7b")]) = "\x7b\"0\":\"\x7b\"\x7d" := by decide

/-- A raw pack record handed back by the storage layer's `getPacks()`: a JS
    object with its fields in JS enumeration order. -/
structure RawPack where
  fields : List (String × JsValue)
deriving DecidableEq, Repr

/-- Property read on the raw record. -/
def RawPack.getF (p : RawPack) (k : String) : Option JsValue := p.fields.lookup k

/-- The label `"Pack: " ++ (pack.name || "Unknown")` synthesized inside the
    indexed-metadata branch (explore.tsx 186-196). -/
def fallbackLabelUnknown (pname : Option JsValue) : String :=
  "Pack: " ++ (if truthyO pname then jsToStringO pname else "Unknown")

/-- A label of the plain branch: a diagnostic tag followed by the template
    coercion of `pack.name` (e.g. `"Pack: " ++ ...`, `"Invalid JSON: " ++ ...`). -/
def labelWith (tag : String) (pname : Option JsValue) : String :=
  tag ++ jsToStringO pname

/-- `Object.keys(pack._metadata).filter((key) => !isNaN(parseInt(key)))`
    (explore.tsx 127-129). -/
def numericKeysOf (fs : List (String × JsPrim)) : List String :=
  (fs.map Prod.fst).filter (fun k => (parseIntJS k).isSome)

/-- The numeric value a key sorts by (`parseInt`; never `NaN` after the filter). -/
def keyVal (k : String) : Int := (parseIntJS k).getD 0

/-- `.sort((a, b) => parseInt(a) - parseInt(b))`: a stable sort by numeric
    value.  JS `Array.prototype.sort` is stable, and so is `insertionSort`
    (ties keep their enumeration order), so they agree extensionally. -/
def sortNumeric (ks : List String) : List String :=
  ks.insertionSort (fun a b => keyVal a ≤ keyVal b)

/-- The value appended for one key by
    `reconstructedJson += pack._metadata[key]` (JS string coercion). -/
def lookVal (fs : List (String × JsPrim)) (k : String) : String :=
  match fs.lookup k with
  | some v => jsPrimToString v
  | none => "undefined"

/-- The reconstructed blob: the numeric keys sorted numerically, their values
    concatenated (explore.tsx 127-135). -/
def reconstructFrom (fs : List (String × JsPrim)) : String :=
  String.join ((sortNumeric (numericKeysOf fs)).map (lookVal fs))

/-- The values pushed by the loop
    `for (let i = 46; i <= 58; i++) if (pack._metadata[i.toString()]) push(...)`
    (explore.tsx 166-173). -/
def timestampChars (fs : List (String × JsPrim)) : List JsPrim :=
  ((List.range' 46 13).map (fun i => Nat.repr i)).filterMap
    (fun k =>
      match fs.lookup k with
      | some v => if truthyPrim v then some v else none
      | none => none)

/-- `timestampChars.join("")` (falsy values were already filtered out). -/
def timestampString (fs : List (String × JsPrim)) : String :=
  String.join ((timestampChars fs).map jsPrimToString)

/-- The `catch (parseError)` fallback of the indexed branch
    (explore.tsx 155-196): use a directly stored `name` if truthy, recovering a
    timestamp from the characters at keys "46"–"58" when more than 45 numeric
    keys exist; otherwise synthesize `"Pack: " ++ (pack.name || "Unknown")`. -/
def indexedFallback (fs : List (String × JsPrim)) (pname : Option JsValue) : JsValue :=
  match fs.lookup "name" with
  | some nv =>
    if truthyPrim nv then
      if 45 < (numericKeysOf fs).length then
        if (timestampChars fs).isEmpty then .obj [("name", nv)]
        else
          match parseIntJS (timestampString fs) with
          | some t => .obj [("name", nv), ("downloaded_at", .num t)]
          | none => .obj [("name", nv)]
      else .obj [("name", nv)]
    else .obj [("name", .str (fallbackLabelUnknown pname))]
  | none => .obj [("name", .str (fallbackLabelUnknown pname))]

/-- Decode of the indexed-character `_metadata` shape (explore.tsx 121-196).
    After a successful parse the two conditional assignments are
    self-assignments (`metadata` aliases `parsed`), and reading `.name` of a
    parsed `null` throws, which the inner `catch` turns into the fallback. -/
def decodeIndexed (fs : List (String × JsPrim)) (pname : Option JsValue) : JsValue :=
  match parseJson (reconstructFrom fs) with
  | some v => if v = .prim .null then indexedFallback fs pname else v
  | none => indexedFallback fs pname

/-- The two normalization steps of the plain branch (explore.tsx 240-248):
    a non-object becomes a `Type error` label, then a falsy `name` is replaced
    by `"Pack: " ++ pack.name`. -/
def ensureNamed (v : JsValue) (pname : Option JsValue) : JsValue :=
  match v with
  | .obj fs =>
    if truthyF (fs.lookup "name") then .obj fs
    else .obj (setField fs "name" (.str (labelWith "Pack: " pname)))
  | .prim _ => .obj [("name", .str (labelWith "Type error: " pname))]

/-- The plain branch of the decode (explore.tsx 198-249), for `pack.metadata`:
    an object is used as-is, a string is `JSON.parse`d with an
    `"Invalid JSON: ..."` label on failure, other truthy primitives get an
    `"Unknown type: ..."` label, and a falsy/absent value a `"Pack: ..."` label;
    the result then passes the two normalization steps.  The surrounding
    `catch` (the `"Error: ..."` label) is unreachable: in every reachable path
    the assignment target is an object. -/
def decodePlain (mo : Option JsValue) (pname : Option JsValue) : JsValue :=
  match mo with
  | some m =>
    if m.truthy then
      match m with
      | .obj fs => ensureNamed (.obj fs) pname
      | .prim (.str s) =>
        match parseJson s with
        | some v => ensureNamed v pname
        | none => ensureNamed (.obj [("name", .str (labelWith "Invalid JSON: " pname))]) pname
      | .prim _ => ensureNamed (.obj [("name", .str (labelWith "Unknown type: " pname))]) pname
    else .obj [("name", .str (labelWith "Pack: " pname))]
  | none => .obj [("name", .str (labelWith "Pack: " pname))]

/-- The full metadata decode for one raw pack (explore.tsx 116-249): the
    indexed branch runs when `pack._metadata` is a truthy value of object type,
    otherwise the plain branch runs on `pack.metadata`. -/
def decodeMeta (p : RawPack) : JsValue :=
  match p.getF "_metadata" with
  | some (.obj fs) => decodeIndexed fs (p.getF "name")
  | _ => decodePlain (p.getF "metadata") (p.getF "name")

/-- A directly stored numeric field of the raw record. -/
def numField (p : RawPack) (k : String) : Option Int :=
  match p.getF k with
  | some (.prim (.num n)) => some n
  | _ => none

/-- A numeric member of a nested object field. -/
def numPrimField (fs : List (String × JsPrim)) (k : String) : Option Int :=
  match fs.lookup k with
  | some (.num n) => some n
  | _ => none

/-- Whether the first list is a prefix of the second, as a Boolean. -/
def listStartsWith : List Char → List Char → Bool
  | [], _ => true
  | _ :: _, [] => false
  | a :: as, b :: bs => a == b && listStartsWith as bs

/-- Whether the first list occurs contiguously inside the second. -/
def listContains (needle : List Char) : List Char → Bool
  | [] => needle.isEmpty
  | c :: rest => listStartsWith needle (c :: rest) || listContains needle rest

/-- Case-insensitive substring test (`key.toLowerCase().includes(needle)`). -/
def containsSub (needle hay : String) : Bool :=
  listContains needle.toList hay.toLower.toList

/-- The last-resort scan of `inspectPackForSize`: the first enumerated field
    with a numeric value whose lowercased name contains "size" or "bytes". -/
def keyScanSize (p : RawPack) : Option Int :=
  p.fields.findSome? fun f =>
    match f.2 with
    | .prim (.num n) =>
      if containsSub "size" f.1 || containsSub "bytes" f.1 then some n else none
    | _ => none

/-- `inspectPackForSize` (explore.tsx 67-104).  Defined by the source inside
    `fetchPacks` but never invoked by it.  The fifth check of the source
    (`completedResourceCount` and `completedResourceSize` both numbers) is kept
    even though the fourth already returned in that case. -/
def inspectPackForSize (p : RawPack) : Option Int :=
  (numField p "size") <|> (numField p "byteSize") <|> (numField p "bytes") <|>
  (numField p "completedResourceSize") <|>
  (match numField p "completedResourceCount", numField p "completedResourceSize" with
   | some _, some n => some n
   | _, _ => none) <|>
  (match p.getF "progress" with
   | some (.obj fs) => (numPrimField fs "completedResourceSize") <|> (numPrimField fs "completedSize")
   | _ => none) <|>
  keyScanSize p

/-- The size actually attached by `fetchPacks` (explore.tsx 251-263): when
    `pack._metadata` is truthy, a base allowance of `10 * 1024` bytes plus
    twice the length of `JSON.stringify(pack._metadata)`; otherwise `null`. -/
def estimatedSize (p : RawPack) : Option Int :=
  match p.getF "_metadata" with
  | some m => if m.truthy then some (10 * 1024 + 2 * ((stringifyJson m).length : Int)) else none
  | none => none

/-- The normalized view built for one raw pack (`bounds` passthrough omitted:
    no claim concerns it and rectangle values are outside the value model). -/
structure FormattedPack where
  id : Option JsValue
  metadata : JsValue
  size : Option Int
deriving DecidableEq, Repr

/-- One entry of the `formattedPacks` map (explore.tsx 116-270). -/
def formatPack (p : RawPack) : FormattedPack :=
  { id := p.getF "name", metadata := decodeMeta p, size := estimatedSize p }

/-- One `fetchPacks` cycle (explore.tsx 106-283) against a storage-layer
    response: on success the mapped list replaces the view, on failure the view
    is set to `[]` — regardless of its previous contents — and an alert
    carrying the message is shown.  No retry happens: exactly one storage call
    is consumed. -/
def fetchPacksModel (resp : Except String (List RawPack)) (prevView : List FormattedPack) :
    List FormattedPack × Option String :=
  match resp, prevView with
  | .ok raws, _ => (raws.map formatPack, none)
  | .error msg, _ => ([], some ("Could not fetch offline packs. " ++ msg))

example : decodeMeta ⟨[("name", .prim (.str "p1"))]⟩ =
    .obj [("name", .str "Pack: p1")] := by decide
example : decodeMeta ⟨[("name", .prim (.str "p1")), ("metadata", .prim (.str "bad"))]⟩ =
    .obj [("name", .str "Invalid JSON: p1")] := by decide
example : decodeMeta ⟨[("_metadata", .obj [("0", .str "\x7b"), ("1", .str "\x7d")])]⟩ =
    .obj [] := by decide
example : decodeMeta ⟨[("name", .prim (.str "p")),
    ("_metadata", .obj [("1", .str "b"), ("0", .str "a"), ("name", .str "N")])]⟩ =
    .obj [("name", .str "N")] := by decide
example : estimatedSize ⟨[("_metadata", .obj [("0", .str "a")])]⟩ =
    some (10 * 1024 + 2 * 9) := by decide

/-!
The download coordinator (home screen, `src/unnamed/part_000`): the state held
in the component (`isDownloading`, `downloadProgress`), the `handleDownload`
action and the `onProgress` / `onError` listeners.  Published progress values
are the arguments of `setDownloadProgress`, in order; alerts are collected as
strings.
-/

/-- The coordinator's state: the `isDownloading` flag and the published
    progress fraction. -/
structure CoordState where
  isDownloading : Bool
  downloadProgress : ℚ
deriving DecidableEq, Repr

/-- The pack argument of a progress/error callback. -/
structure PackInfo where
  name : Option JsValue
  metadata : Option JsValue
deriving DecidableEq, Repr

/-- The status argument of a progress callback. -/
structure PackStatus where
  state : Int
  percentage : ℚ
deriving DecidableEq, Repr

/-- The error argument of the error callback. -/
structure PackError where
  message : String
deriving DecidableEq, Repr

/-- `pack.metadata?.name || pack.name` under template coercion (part_000 97). -/
def displayLabel (pk : PackInfo) : String :=
  let n : Option JsValue :=
    match pk.metadata with
    | some m => (m.getField "name").map (fun p => JsValue.prim p)
    | none => none
  if truthyO n then jsToStringO n else jsToStringO pk.name

/-- The completion alert text (part_000 95-101). -/
def completedMsg (pk : PackInfo) : String :=
  "Region \"" ++ displayLabel pk ++ "\" downloaded successfully."

/-- The error alert text (part_000 116-121). -/
def errorMsg (pk : PackInfo) (e : PackError) : String :=
  "Failed to download region " ++
    (if truthyO pk.name then jsToStringO pk.name else "Unknown Pack") ++
    ". " ++ e.message

/-- One `onProgress` invocation (part_000 86-109): republishes
    `status.percentage / 100`; on the completion status code `3` it alerts,
    clears `isDownloading`, and publishes exactly `1`.  Returns the new state,
    the published fractions in order, and the alerts raised. -/
def onProgressStep (pk : PackInfo) (st : PackStatus) (s : CoordState) :
    CoordState × List ℚ × List String :=
  let p := st.percentage / 100
  if st.state = 3 then
    (⟨false, 1⟩, [p, 1], [completedMsg pk])
  else
    (⟨s.isDownloading, p⟩, [p], [])

/-- A whole progress-callback sequence, collecting everything published. -/
def runProgress (pk : PackInfo) : List PackStatus → CoordState → CoordState × List ℚ × List String
  | [], s => (s, [], [])
  | st :: rest, s =>
    let r1 := onProgressStep pk st s
    let r2 := runProgress pk rest r1.1
    (r2.1, r1.2.1 ++ r2.2.1, r1.2.2 ++ r2.2.2)

/-- One `onError` invocation (part_000 111-126): regardless of the current
    state, alert with the message, clear `isDownloading`, reset the fraction
    to `0`. -/
def onErrorStep (pk : PackInfo) (e : PackError) (_s : CoordState) : CoordState × String :=
  (⟨false, 0⟩, errorMsg pk e)

/-- The environment one `handleDownload` call runs against: manager
    availability, the viewport bounds and zoom, the wall clock and its label,
    and whether the `createPack` call rejects. -/
structure DlEnv where
  managerAvailable : Bool
  bounds : Option ((ℚ × ℚ) × (ℚ × ℚ))
  zoom : Option ℚ
  nowMillis : Int
  timeLabel : String
  createFails : Option String
deriving DecidableEq, Repr

/-- The observable outcome of one `handleDownload` call. -/
inductive DlResult where
  | rejectedBusy
  | managerUnavailable
  | noBounds
  | createFailed (msg : String)
  | accepted (packName : String) (minZoom maxZoom : Int) (metadataBlob : String)
deriving DecidableEq, Repr

/-- The metadata blob written at creation (part_000 152-155):
    `JSON.stringify(\x7b name: "Region @ " + time, downloaded_at: Date.now() \x7d)`. -/
def encodeMeta (timeLabel : String) (now : Int) : String :=
  stringifyJson (.obj [("name", .str ("Region @ " ++ timeLabel)), ("downloaded_at", .num now)])

/-- `handleDownload` (part_000 129-185).  The guard returns without touching
    any state when a download is running or the manager is missing; otherwise
    `isDownloading` is set and the progress reset, the viewport is read (a
    missing viewport rolls `isDownloading` back), the zoom window is clamped to
    `[max 0 (z-2), min 16 (z+3)]`, and `createPack` is issued (a rejection
    rolls the state back). -/
def handleDownload (env : DlEnv) (s : CoordState) : CoordState × DlResult :=
  if s.isDownloading || !env.managerAvailable then
    (s, if env.managerAvailable then .rejectedBusy else .managerUnavailable)
  else
    match env.bounds, env.zoom with
    | some _, some z =>
      match env.createFails with
      | some msg => (⟨false, 0⟩, .createFailed msg)
      | none =>
        (⟨true, 0⟩,
          .accepted ("offline-pack-" ++ toString env.nowMillis)
            (max 0 (⌊z⌋ - 2)) (min 16 (⌊z⌋ + 3))
            (encodeMeta env.timeLabel env.nowMillis))
    | _, _ => (⟨false, 0⟩, .noBounds)

example :
    handleDownload ⟨true, some ((0, 0), (1, 1)), some 12, 5, "t", none⟩ ⟨false, 0⟩ =
      (⟨true, 0⟩, .accepted "offline-pack-5" 10 15 (encodeMeta "t" 5)) := by decide
example :
    handleDownload ⟨true, some ((0, 0), (1, 1)), some 12, 5, "t", none⟩ ⟨true, (1 : ℚ) / 2⟩ =
      (⟨true, (1 : ℚ) / 2⟩, .rejectedBusy) := by
  simp [handleDownload]
example :
    runProgress ⟨some (.prim (.str "p")), none⟩
        [⟨0, 10⟩, ⟨3, 100⟩] ⟨true, 0⟩ =
      (⟨false, 1⟩, [(1 : ℚ) / 10, 1, 1],
        ["Region \"p\" downloaded successfully."]) := by
  norm_num [runProgress, onProgressStep, completedMsg, displayLabel, truthyO, JsValue.truthy,
    jsToStringO, jsToString, jsPrimToString, JsValue.getField]
  decide

/-! ### Shared helper lemmas -/

theorem lookup_setField : ∀ (fs : List (String × JsPrim)) (k : String) (v : JsPrim),
    (setField fs k v).lookup k = some v
  | [], k, v => by simp [setField, List.lookup]
  | (k', v') :: rest, k, v => by
    by_cases h : k' = k
    · subst h
      simp [setField, List.lookup]
    · have h1 : (k' == k) = false := by simp [h]
      have h2 : (k == k') = false := by simp [Ne.symm h]
      simp [setField, h1, h2, List.lookup, lookup_setField rest k v]

theorem truthy_append_label (pre x : String) (h : pre.data ≠ []) :
    truthyPrim (.str (pre ++ x)) = true := by
  have hne : (pre ++ x) ≠ "" := by
    intro he
    have hd := congrArg String.data he
    simp only [String.data_append] at hd
    rcases List.append_eq_nil.mp (by simpa using hd) with ⟨h1, _⟩
    exact h h1
  simp [truthyPrim, hne]

theorem ensureNamed_name_truthy (v : JsValue) (pname : Option JsValue) :
    truthyF ((ensureNamed v pname).getField "name") = true := by
  cases v with
  | prim q =>
    simp [ensureNamed, JsValue.getField, List.lookup, truthyF, labelWith]
    exact truthy_append_label "Type error: " _ (by decide)
  | obj fs =>
    by_cases ht : truthyF (fs.lookup "name") = true
    · have he : ensureNamed (.obj fs) pname = .obj fs := by
        simp [ensureNamed, ht]
      rw [he]
      simpa [JsValue.getField] using ht
    · have ht' : truthyF (fs.lookup "name") = false := by
        simpa using ht
      have he : ensureNamed (.obj fs) pname =
          .obj (setField fs "name" (.str (labelWith "Pack: " pname))) := by
        simp [ensureNamed, ht']
      rw [he]
      simp only [JsValue.getField, lookup_setField, truthyF, labelWith]
      exact truthy_append_label "Pack: " _ (by decide)

theorem decodePlain_name_truthy (mo pname : Option JsValue) :
    truthyF ((decodePlain mo pname).getField "name") = true := by
  have hlbl : truthyF ((JsValue.obj [("name", JsPrim.str (labelWith "Pack: " pname))]).getField
      "name") = true := by
    simp [JsValue.getField, List.lookup, truthyF, labelWith]
    exact truthy_append_label "Pack: " _ (by decide)
  cases mo with
  | none => simpa [decodePlain] using hlbl
  | some m =>
    by_cases hm : m.truthy = true
    · cases m with
      | obj fs => simp [decodePlain, hm, ensureNamed_name_truthy]
      | prim q =>
        cases q with
        | str s =>
          cases hp : parseJson s with
          | some v => simp [decodePlain, hm, hp, ensureNamed_name_truthy]
          | none => simp [decodePlain, hm, hp, ensureNamed_name_truthy]
        | null => simp [JsValue.truthy, truthyPrim] at hm
        | bool b => simp [decodePlain, hm, ensureNamed_name_truthy]
        | num n => simp [decodePlain, hm, ensureNamed_name_truthy]
    · have hm' : m.truthy = false := by simpa using hm
      simpa [decodePlain, hm'] using hlbl

theorem indexedFallback_name_truthy (fs : List (String × JsPrim)) (pname : Option JsValue) :
    truthyF ((indexedFallback fs pname).getField "name") = true := by
  have hlbl : truthyF ((JsValue.obj [("name", JsPrim.str (fallbackLabelUnknown pname))]).getField
      "name") = true := by
    simp [JsValue.getField, List.lookup, truthyF, fallbackLabelUnknown]
    exact truthy_append_label "Pack: " _ (by decide)
  cases hl : fs.lookup "name" with
  | none => simpa [indexedFallback, hl] using hlbl
  | some nv =>
    by_cases ht : truthyPrim nv = true
    · simp only [indexedFallback, hl, ht, if_true]
      split
      · split
        · simpa [JsValue.getField, List.lookup, truthyF] using ht
        · split
          · simpa [JsValue.getField, List.lookup, truthyF] using ht
          · simpa [JsValue.getField, List.lookup, truthyF] using ht
      · simpa [JsValue.getField, List.lookup, truthyF] using ht
    · have ht' : truthyPrim nv = false := by simpa using ht
      simpa [indexedFallback, hl, ht'] using hlbl

/-! ### C9 -/

/-- C9: when the storage layer's `listPacks` call fails, one fetch cycle yields
    the empty view — replacing whatever was cached before — together with a
    non-fatal reported error carrying the message, and consumes exactly one
    storage response (no automatic retry). -/
theorem c9_fetch_failure (prevView : List FormattedPack) (msg : String) :
    fetchPacksModel (Except.error msg) prevView =
      ([], some ("Could not fetch offline packs. " ++ msg)) := rfl

/-! ### C5 -/

/-- C5 counterexample: a raw record that directly reports `size: 123` (and has
    no `_metadata`) ends up with no size estimate at all, although the claim
    requires the reported field to be returned; the deep-inspection helper
    would have found it, but `fetchPacks` never calls that helper. -/
theorem c5_counterexample :
    inspectPackForSize ⟨[("name", .prim (.str "p")), ("size", .prim (.num 123))]⟩ = some 123 ∧
    estimatedSize ⟨[("name", .prim (.str "p")), ("size", .prim (.num 123))]⟩ = none ∧
    (formatPack ⟨[("name", .prim (.str "p")), ("size", .prim (.num 123))]⟩).size = none := by
  decide

/-- C5 (amended): the size attached to the normalized pack ignores every
    directly reported size-like field — it depends only on `_metadata` — and
    equals the base allowance `10 * 1024` plus twice the length of
    `JSON.stringify(pack._metadata)` when `_metadata` is truthy, nothing
    otherwise; it is never zero. -/
theorem c5_estimate_amended (p q : RawPack)
    (hsame : p.getF "_metadata" = q.getF "_metadata") :
    estimatedSize p = estimatedSize q ∧
    (∀ m, p.getF "_metadata" = some m → m.truthy = true →
      estimatedSize p = some (10 * 1024 + 2 * ((stringifyJson m).length : Int))) ∧
    (p.getF "_metadata" = none → estimatedSize p = none) ∧
    (formatPack p).size = estimatedSize p ∧
    estimatedSize p ≠ some 0 := by
  refine ⟨?_, ?_, ?_, rfl, ?_⟩
  · unfold estimatedSize
    rw [hsame]
  · intro m hm hmt
    simp [estimatedSize, hm, hmt]
  · intro hm
    simp [estimatedSize, hm]
  · cases hm : p.getF "_metadata" with
    | none => simp [estimatedSize, hm]
    | some m =>
      by_cases hmt : m.truthy = true
      · simp only [estimatedSize, hm, hmt, if_true]
        intro hcon
        have h0 := Option.some.inj hcon
        omega
      · have hmt' : m.truthy = false := by simpa using hmt
        simp [estimatedSize, hm, hmt']

/-- C5 witness at a concrete input. -/
theorem c5_witness :
    estimatedSize ⟨[("_metadata", .obj [("0", .str "a")])]⟩ =
      some (10 * 1024 + 2 *
        ((stringifyJson (.obj [("0", JsPrim.str "a")])).length : Int)) ∧
    estimatedSize ⟨[("_metadata", .obj [("0", .str "a")])]⟩ ≠ some 0 := by
  have h := c5_estimate_amended ⟨[("_metadata", .obj [("0", .str "a")])]⟩
    ⟨[("_metadata", .obj [("0", .str "a")])]⟩ rfl
  exact ⟨h.2.1 _ (by decide) (by decide), h.2.2.2.2⟩

/-! ### C6 -/

/-- C6 counterexample: with identifier "p1" and an unparsable opaque metadata
    string no display name is recoverable, yet the synthesized label is
    "Invalid JSON: p1" — not "Pack: p1" as the claim requires. -/
theorem c6_counterexample :
    decodeMeta ⟨[("name", .prim (.str "p1")), ("metadata", .prim (.str "not json"))]⟩ =
      .obj [("name", .str "Invalid JSON: p1")] ∧
    ("Invalid JSON: p1" : String) ≠ "Pack: p1" := by decide

/-- C6 (amended): the label is exactly `"Pack: " ++ identifier` when no
    metadata value is stored at all, and when a stored metadata object carries
    no name; other unrecoverable paths synthesize labels with different
    diagnostic prefixes. -/
theorem c6_fallback_amended (p : RawPack) (idStr : String)
    (hname : p.getF "name" = some (.prim (.str idStr)))
    (hmeta2 : ∀ fs, p.getF "_metadata" ≠ some (.obj fs)) :
    (p.getF "metadata" = none →
      decodeMeta p = .obj [("name", .str ("Pack: " ++ idStr))]) ∧
    (∀ fs, p.getF "metadata" = some (.obj fs) → fs.lookup "name" = none →
      decodeMeta p = .obj (setField fs "name" (.str ("Pack: " ++ idStr)))) := by
  have hd : decodeMeta p = decodePlain (p.getF "metadata") (p.getF "name") := by
    unfold decodeMeta
    cases h2 : p.getF "_metadata" with
    | none => rfl
    | some v =>
      cases v with
      | prim q => rfl
      | obj fs => exact absurd h2 (hmeta2 fs)
  constructor
  · intro hm
    rw [hd, hm, hname]
    simp [decodePlain, labelWith, jsToStringO, jsToString, jsPrimToString]
  · intro fs hm hfs
    rw [hd, hm, hname]
    simp [decodePlain, JsValue.truthy, ensureNamed, hfs, truthyF, labelWith, jsToStringO,
      jsToString, jsPrimToString]

/-- C6 witness at a concrete input. -/
theorem c6_witness :
    decodeMeta ⟨[("name", .prim (.str "w7"))]⟩ = .obj [("name", .str ("Pack: " ++ "w7"))] ∧
    decodeMeta ⟨[("name", .prim (.str "w8")), ("metadata", .obj [("size", .num 1)])]⟩ =
      .obj (setField [("size", JsPrim.num 1)] "name" (.str ("Pack: " ++ "w8"))) := by
  refine ⟨(c6_fallback_amended ⟨[("name", .prim (.str "w7"))]⟩ "w7" (by decide) ?_).1 (by decide),
    (c6_fallback_amended ⟨[("name", .prim (.str "w8")), ("metadata", .obj [("size", .num 1)])]⟩
      "w8" (by decide) ?_).2 [("size", JsPrim.num 1)] (by decide) (by decide)⟩
  · intro fs h
    simp [RawPack.getF, List.lookup] at h
  · intro fs h
    simp [RawPack.getF, List.lookup] at h

/-! ### C7 -/

/-- C7 counterexample: the synthesized label for an unparsable opaque string
    contains the pack identifier, not the raw string fragment — the fragment
    "garbage\x7d" occurs nowhere in "Invalid JSON: p1". -/
theorem c7_counterexample :
    decodeMeta ⟨[("name", .prim (.str "p1")), ("metadata", .prim (.str "garbage\x7d"))]⟩ =
      .obj [("name", .str "Invalid JSON: p1")] ∧
    listContains "garbage\x7d".toList ("Invalid JSON: p1").toList = false := by decide

/-- C7 (amended): an opaque metadata string that fails to parse never crashes
    the decode and never propagates the failure; the decoded name is the
    synthesized label `"Invalid JSON: " ++ identifier` (which carries the pack
    identifier, not the raw string fragment). -/
theorem c7_invalid_json_amended (p : RawPack) (idStr rawStr : String)
    (hname : p.getF "name" = some (.prim (.str idStr)))
    (hmeta2 : ∀ fs, p.getF "_metadata" ≠ some (.obj fs))
    (hmeta : p.getF "metadata" = some (.prim (.str rawStr)))
    (hfail : parseJson rawStr = none) (hne : rawStr ≠ "") :
    decodeMeta p = .obj [("name", .str ("Invalid JSON: " ++ idStr))] := by
  have hd : decodeMeta p = decodePlain (p.getF "metadata") (p.getF "name") := by
    unfold decodeMeta
    cases h2 : p.getF "_metadata" with
    | none => rfl
    | some v =>
      cases v with
      | prim q => rfl
      | obj fs => exact absurd h2 (hmeta2 fs)
  rw [hd, hmeta, hname]
  have hlab : ("Invalid JSON: " ++ idStr) ≠ "" := by
    intro he
    have hdata := congrArg String.data he
    simp only [String.data_append] at hdata
    simp at hdata
  simp [decodePlain, JsValue.truthy, truthyPrim, hne, hfail, ensureNamed, List.lookup, truthyF,
    labelWith, jsToStringO, jsToString, jsPrimToString, hlab]

/-- C7 witness at a concrete input. -/
theorem c7_witness :
    decodeMeta ⟨[("name", .prim (.str "p2")), ("metadata", .prim (.str "oops"))]⟩ =
      .obj [("name", .str ("Invalid JSON: " ++ "p2"))] :=
  c7_invalid_json_amended _ "p2" "oops" (by decide)
    (fun fs h => by simp [RawPack.getF, List.lookup] at h)
    (by decide) (by decide) (by decide)

/-! ### C1 -/

/-- C1 counterexample: an indexed-character map scattering the two characters
    of "\x7b\x7d" decodes to the parsed empty object: no name at all, so the
    decoded record does not have a non-empty displayName. -/
theorem c1_counterexample :
    decodeMeta ⟨[("_metadata", .obj [("0", .str "\x7b"), ("1", .str "\x7d")])]⟩ =
      .obj [] ∧
    truthyF ((JsValue.obj []).getField "name") = false := by decide

/-- C1 (amended): decode is total — every parse failure is caught and degrades
    to a synthesized label — and the decoded record has a truthy (for strings:
    non-empty) name in every case except one: an indexed-character map whose
    reconstructed text parses as non-null JSON without a recoverable name is
    returned as parsed, possibly with no name at all. -/
theorem c1_decode_total_amended (p : RawPack)
    (h : ∀ fs, p.getF "_metadata" = some (.obj fs) →
      ∀ v, parseJson (reconstructFrom fs) = some v → v = .prim .null) :
    truthyF ((decodeMeta p).getField "name") = true := by
  unfold decodeMeta
  cases h2 : p.getF "_metadata" with
  | none => exact decodePlain_name_truthy _ _
  | some m =>
    cases m with
    | prim q => exact decodePlain_name_truthy _ _
    | obj fs =>
      show truthyF ((decodeIndexed fs (p.getF "name")).getField "name") = true
      unfold decodeIndexed
      cases hv : parseJson (reconstructFrom fs) with
      | none => exact indexedFallback_name_truthy _ _
      | some v =>
        have hnull := h fs h2 v hv
        subst hnull
        simpa using indexedFallback_name_truthy fs (p.getF "name")

/-- C1 witness at a concrete input. -/
theorem c1_witness :
    truthyF ((decodeMeta ⟨[("name", .prim (.str "w0"))]⟩).getField "name") = true :=
  c1_decode_total_amended ⟨[("name", .prim (.str "w0"))]⟩
    (fun fs hfs => by simp [RawPack.getF, List.lookup] at hfs)

/-! ### C3 -/

/-- C3: with the manager available, a `requestDownload` issued while a session
    is active is rejected synchronously and performs no state transition; two
    immediate calls give exactly one accepted session, and the second leaves
    the first session's flag and progress untouched. -/
theorem c3_single_flight (env env' : DlEnv) (s : CoordState)
    (h0 : s.isDownloading = false) (hm : env.managerAvailable = true)
    (hb : env.bounds.isSome) (hz : env.zoom.isSome) (hc : env.createFails = none)
    (hm' : env'.managerAvailable = true) :
    (∃ nm mz Mz blob, handleDownload env s = (⟨true, 0⟩, .accepted nm mz Mz blob)) ∧
    handleDownload env' (handleDownload env s).1 =
      ((handleDownload env s).1, .rejectedBusy) ∧
    (handleDownload env' (handleDownload env s).1).1.isDownloading = true ∧
    (handleDownload env' (handleDownload env s).1).1.downloadProgress = 0 := by
  obtain ⟨b, hb'⟩ := Option.isSome_iff_exists.mp hb
  obtain ⟨z, hz'⟩ := Option.isSome_iff_exists.mp hz
  have h1 : handleDownload env s =
      (⟨true, 0⟩, .accepted ("offline-pack-" ++ toString env.nowMillis)
        (max 0 (⌊z⌋ - 2)) (min 16 (⌊z⌋ + 3)) (encodeMeta env.timeLabel env.nowMillis)) := by
    simp [handleDownload, h0, hm, hb', hz', hc]
  have h2 : handleDownload env' (⟨true, 0⟩ : CoordState) =
      ((⟨true, 0⟩ : CoordState), .rejectedBusy) := by
    simp [handleDownload, hm']
  refine ⟨⟨_, _, _, _, h1⟩, ?_, ?_, ?_⟩ <;> rw [h1] <;> simp [h2]

/-- C3 witness at a concrete input. -/
theorem c3_witness :
    (∃ nm mz Mz blob,
      handleDownload ⟨true, some ((0, 0), (1, 1)), some 12, 7, "t", none⟩ ⟨false, 0⟩ =
        (⟨true, 0⟩, .accepted nm mz Mz blob)) ∧
    handleDownload ⟨true, none, none, 8, "u", none⟩
        (handleDownload ⟨true, some ((0, 0), (1, 1)), some 12, 7, "t", none⟩ ⟨false, 0⟩).1 =
      ((handleDownload ⟨true, some ((0, 0), (1, 1)), some 12, 7, "t", none⟩ ⟨false, 0⟩).1,
        .rejectedBusy) ∧
    (handleDownload ⟨true, none, none, 8, "u", none⟩
        (handleDownload ⟨true, some ((0, 0), (1, 1)), some 12, 7, "t", none⟩ ⟨false, 0⟩).1).1.isDownloading
      = true ∧
    (handleDownload ⟨true, none, none, 8, "u", none⟩
        (handleDownload ⟨true, some ((0, 0), (1, 1)), some 12, 7, "t", none⟩ ⟨false, 0⟩).1).1.downloadProgress
      = 0 :=
  c3_single_flight _ _ _ rfl rfl (by decide) (by decide) rfl rfl

/-! ### C8 -/

/-- C8: any error-callback invocation, from any state, moves to the failed
    outcome: `isDownloading` is cleared, the published fraction reset to
    exactly `0`, the underlying message is surfaced as a suffix of the alert,
    and a new `requestDownload` is accepted afterwards. -/
theorem c8_error_reset (pk : PackInfo) (e : PackError) (s : CoordState) (env : DlEnv)
    (hm : env.managerAvailable = true) (hb : env.bounds.isSome)
    (hz : env.zoom.isSome) (hc : env.createFails = none) :
    (onErrorStep pk e s).1 = ⟨false, 0⟩ ∧
    e.message.data <:+ ((onErrorStep pk e s).2).data ∧
    (∃ nm mz Mz blob,
      handleDownload env (onErrorStep pk e s).1 = (⟨true, 0⟩, .accepted nm mz Mz blob)) := by
  obtain ⟨b, hb'⟩ := Option.isSome_iff_exists.mp hb
  obtain ⟨z, hz'⟩ := Option.isSome_iff_exists.mp hz
  refine ⟨rfl, ?_, ?_⟩
  · show e.message.data <:+ (errorMsg pk e).data
    unfold errorMsg
    simp only [String.data_append]
    exact (List.suffix_append _ _)
  · refine ⟨"offline-pack-" ++ toString env.nowMillis, max 0 (⌊z⌋ - 2), min 16 (⌊z⌋ + 3),
      encodeMeta env.timeLabel env.nowMillis, ?_⟩
    simp [onErrorStep, handleDownload, hm, hb', hz', hc]

/-- C8 witness at a concrete input. -/
theorem c8_witness :
    (onErrorStep ⟨some (.prim (.str "p")), none⟩ ⟨"boom"⟩ ⟨true, (1 : ℚ) / 2⟩).1 =
      ⟨false, 0⟩ ∧
    ("boom" : String).data <:+
      ((onErrorStep ⟨some (.prim (.str "p")), none⟩ ⟨"boom"⟩ ⟨true, (1 : ℚ) / 2⟩).2).data ∧
    (∃ nm mz Mz blob,
      handleDownload ⟨true, some ((0, 0), (1, 1)), some 12, 9, "t", none⟩
          (onErrorStep ⟨some (.prim (.str "p")), none⟩ ⟨"boom"⟩ ⟨true, (1 : ℚ) / 2⟩).1 =
        (⟨true, 0⟩, .accepted nm mz Mz blob)) :=
  c8_error_reset _ _ _ _ rfl (by decide) (by decide) rfl

/-! ### C10 -/

/-- C10: when the reconstructed text of an indexed-character map fails to parse
    but the map carries a truthy `name` and has more than 45 numeric keys, the
    decode keeps that name and recovers `downloaded_at` from the characters
    stored at keys "46" through "58": whenever their concatenation parses as an
    integer, that integer becomes the timestamp. -/
theorem c10_timestamp_extraction (p : RawPack) (fs : List (String × JsPrim)) (nv : JsPrim)
    (hp : p.getF "_metadata" = some (.obj fs))
    (hfail : parseJson (reconstructFrom fs) = none)
    (hname : fs.lookup "name" = some nv) (hnv : truthyPrim nv = true)
    (hlen : 45 < (numericKeysOf fs).length) :
    (decodeMeta p).getField "name" = some nv ∧
    ∀ t, parseIntJS (timestampString fs) = some t →
      (decodeMeta p).getField "downloaded_at" = some (.num t) := by
  have hd : decodeMeta p = indexedFallback fs (p.getF "name") := by
    unfold decodeMeta
    rw [hp]
    show decodeIndexed fs (p.getF "name") = _
    unfold decodeIndexed
    rw [hfail]
  rw [hd]
  unfold indexedFallback
  rw [hname]
  simp only [hnv, if_true, hlen, if_pos]
  constructor
  · split
    · simp [JsValue.getField, List.lookup]
    · split
      · simp [JsValue.getField, List.lookup]
      · simp [JsValue.getField, List.lookup]
  · intro t ht
    have hchars : (timestampChars fs).isEmpty = false := by
      cases hchars : (timestampChars fs).isEmpty with
      | false => rfl
      | true =>
        have hempty : timestampChars fs = [] := List.isEmpty_iff.mp hchars
        have hts : timestampString fs = "" := by
          unfold timestampString
          rw [hempty]
          rfl
        rw [hts, show parseIntJS "" = none from by decide] at ht
        exact Option.noConfusion ht
    rw [if_neg (by simp [hchars])]
    rw [ht]
    simp +decide [JsValue.getField, List.lookup]

/-- The concrete indexed-character map of the C10 witness: a stored name, 46
    filler characters at keys "0"–"45" (so the reconstruction is unparsable and
    more than 45 numeric keys exist), and the digits of 1700000000000 at keys
    "46"–"58". -/
def c10fields : List (String × JsPrim) :=
  ("name", JsPrim.str "W") ::
    (((List.range' 0 46).map (fun i => (Nat.repr i, JsPrim.str "x"))) ++
      (((List.range' 46 13).zip "1700000000000".toList).map
        (fun q => (Nat.repr q.1, JsPrim.str (String.singleton q.2)))))

/-- C10 witness at a concrete input. -/
theorem c10_witness :
    (decodeMeta ⟨[("_metadata", .obj c10fields)]⟩).getField "name" =
      some (JsPrim.str "W") ∧
    (decodeMeta ⟨[("_metadata", .obj c10fields)]⟩).getField "downloaded_at" =
      some (JsPrim.num 1700000000000) :=
  ⟨(c10_timestamp_extraction ⟨[("_metadata", .obj c10fields)]⟩ c10fields (JsPrim.str "W")
      (by decide) (by decide) (by decide) (by decide) (by decide)).1,
    (c10_timestamp_extraction ⟨[("_metadata", .obj c10fields)]⟩ c10fields (JsPrim.str "W")
      (by decide) (by decide) (by decide) (by decide) (by decide)).2 1700000000000 (by decide)⟩

/-! ### C4 -/

/-- The coordinator run over a progress sequence whose only terminal event
    comes last: every event republishes its fraction, the final event
    publishes the clamp to `1`, raises the completion alert with the display
    label, and clears `isDownloading`. -/
theorem runProgress_terminal (pk : PackInfo) (el : PackStatus) (hel : el.state = 3) :
    ∀ (es : List PackStatus) (s₀ : CoordState), (∀ e ∈ es, e.state ≠ 3) →
      runProgress pk (es ++ [el]) s₀ =
        (⟨false, 1⟩, (es ++ [el]).map (fun e => e.percentage / 100) ++ [1], [completedMsg pk])
  | [], s₀, _ => by
    simp [runProgress, onProgressStep, hel]
  | e :: es, s₀, hmid => by
    have he : ¬(e.state = 3) := hmid e (by simp)
    have ih := runProgress_terminal pk el hel es ⟨s₀.isDownloading, e.percentage / 100⟩
      (fun x hx => hmid x (by simp [hx]))
    simp [runProgress, onProgressStep, he, ih]

/-- The published fractions are non-decreasing once the percentages are, and
    the appended clamp `1` dominates fractions of percentages at most 100. -/
theorem chain_div100_append_one :
    ∀ (l : List PackStatus), List.Chain' (fun a b => a.percentage ≤ b.percentage) l →
      (∀ e ∈ l, e.percentage ≤ 100) →
      List.Chain' (· ≤ ·) (l.map (fun e => e.percentage / 100) ++ [(1 : ℚ)])
  | [], _, _ => by simp
  | [e], _, hb => by
    have h1 : e.percentage / 100 ≤ 1 := by
      rw [div_le_one (by norm_num)]
      exact hb e (by simp)
    simp [List.chain'_cons, h1]
  | e :: f :: l, hc, hb => by
    have hef : e.percentage ≤ f.percentage := (List.chain'_cons.mp hc).1
    have ih := chain_div100_append_one (f :: l) (List.chain'_cons.mp hc).2
      (fun x hx => hb x (by simp at hx ⊢; tauto))
    simp only [List.map_cons, List.cons_append] at ih ⊢
    refine List.chain'_cons.mpr ⟨by linarith, ih⟩

/-- C4: for progress callbacks with non-decreasing percentages in 0–100 whose
    final event is the complete status, every percentage is republished as
    `percentage / 100`, the published fraction sequence is non-decreasing and
    ends with the clamp to exactly `1`, the coordinator ends not downloading
    with fraction `1`, and the caller is alerted with the display label. -/
theorem c4_progress_monotone (pk : PackInfo) (s₀ : CoordState)
    (es : List PackStatus) (el : PackStatus)
    (hmid : ∀ e ∈ es, e.state ≠ 3) (hel : el.state = 3)
    (hmono : List.Chain' (fun a b => a.percentage ≤ b.percentage) (es ++ [el]))
    (hbound : ∀ e ∈ es ++ [el], 0 ≤ e.percentage ∧ e.percentage ≤ 100) :
    (runProgress pk (es ++ [el]) s₀).2.1 =
      (es ++ [el]).map (fun e => e.percentage / 100) ++ [1] ∧
    List.Chain' (· ≤ ·) ((runProgress pk (es ++ [el]) s₀).2.1) ∧
    ((runProgress pk (es ++ [el]) s₀).2.1).getLast? = some 1 ∧
    (runProgress pk (es ++ [el]) s₀).1 = ⟨false, 1⟩ ∧
    (runProgress pk (es ++ [el]) s₀).2.2 = [completedMsg pk] := by
  have hr := runProgress_terminal pk el hel es s₀ hmid
  rw [hr]
  refine ⟨rfl, ?_, ?_, rfl, rfl⟩
  · exact chain_div100_append_one _ hmono (fun e he => (hbound e he).2)
  · show ((es ++ [el]).map (fun e : PackStatus => e.percentage / 100) ++ [(1 : ℚ)]).getLast? =
      some 1
    exact List.getLast?_concat _

/-- The non-terminal events of the C4 witness: percentages 10, 45, 45, 90. -/
def c4events : List PackStatus := [⟨0, 10⟩, ⟨0, 45⟩, ⟨0, 45⟩, ⟨0, 90⟩]

/-- The terminal event of the C4 witness: the complete status at 100. -/
def c4last : PackStatus := ⟨3, 100⟩

/-- The pack of the C4 witness. -/
def c4pack : PackInfo := ⟨some (.prim (.str "p0")), some (.obj [("name", .str "Trailhead")])⟩

/-- C4 witness at a concrete input: percentages [10, 45, 45, 90, 100]. -/
theorem c4_witness :
    (runProgress c4pack (c4events ++ [c4last]) ⟨true, 0⟩).2.1 =
      (c4events ++ [c4last]).map (fun e => e.percentage / 100) ++ [1] ∧
    List.Chain' (· ≤ ·) ((runProgress c4pack (c4events ++ [c4last]) ⟨true, 0⟩).2.1) ∧
    ((runProgress c4pack (c4events ++ [c4last]) ⟨true, 0⟩).2.1).getLast? = some 1 ∧
    (runProgress c4pack (c4events ++ [c4last]) ⟨true, 0⟩).1 = ⟨false, 1⟩ ∧
    (runProgress c4pack (c4events ++ [c4last]) ⟨true, 0⟩).2.2 = [completedMsg c4pack] :=
  c4_progress_monotone c4pack ⟨true, 0⟩ c4events c4last
    (by
      intro e he
      simp only [c4events, List.mem_cons, List.not_mem_nil, or_false] at he
      rcases he with h | h | h | h <;> subst h <;> decide)
    (by decide)
    (by norm_num [c4events, c4last, List.chain'_cons])
    (by
      intro e he
      simp only [c4events, c4last, List.mem_append, List.mem_cons,
        List.not_mem_nil, or_false] at he
      rcases he with (h | h | h | h) | h <;> subst h <;> norm_num)

/-! ### C2 -/

open scoped List

instance : IsTotal String (fun a b => keyVal a ≤ keyVal b) :=
  ⟨fun a b => le_total (keyVal a) (keyVal b)⟩

instance : IsTrans String (fun a b => keyVal a ≤ keyVal b) :=
  ⟨fun _ _ _ h1 h2 => le_trans h1 h2⟩

/-- Modelled from the spec's words, for comparison with the code's key filter:
    the keys the claim says are collected — exactly those that parse as
    non-negative integers. -/
def specNonNegKeys (fs : List (String × JsPrim)) : List String :=
  (fs.map Prod.fst).filter (fun k =>
    match parseIntJS k with
    | some n => decide (0 ≤ n)
    | none => false)

/-- C2 counterexample: the code's filter also keeps the key "-1", which parses
    as a negative integer, so the collected keys are not exactly those parsing
    as non-negative integers — and the stray key changes the decoded result
    (the claim's collection would reconstruct "8", the code reconstructs and
    parses "98"). -/
theorem c2_counterexample :
    numericKeysOf [("-1", JsPrim.str "9"), ("0", JsPrim.str "8")] = ["-1", "0"] ∧
    specNonNegKeys [("-1", JsPrim.str "9"), ("0", JsPrim.str "8")] = ["0"] ∧
    decodeIndexed [("-1", JsPrim.str "9"), ("0", JsPrim.str "8")] none =
      .prim (.num 98) := by decide

theorem lookup_of_nodup_keys :
    ∀ (l : List (String × JsPrim)), (l.map Prod.fst).Nodup →
      ∀ {k : String} {v : JsPrim}, (k, v) ∈ l → l.lookup k = some v
  | [], _, _, _, h => absurd h (List.not_mem_nil _)
  | (k', v') :: rest, hnd, k, v, hmem => by
    simp only [List.map_cons, List.nodup_cons] at hnd
    rcases List.mem_cons.mp hmem with he | hm
    · cases he
      simp [List.lookup]
    · have hk : ¬(k = k') := by
        intro h0
        subst h0
        exact hnd.1 (List.mem_map_of_mem Prod.fst hm)
      have hbeq : (k == k') = false := by simp [hk]
      simp [List.lookup, hbeq, lookup_of_nodup_keys rest hnd.2 hm]

theorem strfoldl_data :
    ∀ (l : List String) (a : String),
      (l.foldl (fun r s => r ++ s) a).data = a.data ++ (l.map String.data).flatten
  | [], a => by simp
  | s :: l, a => by
    rw [List.foldl_cons, strfoldl_data l (a ++ s)]
    simp [List.append_assoc]

theorem flatten_singletons : ∀ cs : List Char, (cs.map (fun c => [c])).flatten = cs
  | [] => rfl
  | c :: cs => by simp [flatten_singletons cs]

theorem join_singletons (cs : List Char) :
    String.join (cs.map String.singleton) = String.mk cs := by
  have h1 : (cs.map String.singleton).map String.data = cs.map (fun c => [c]) := by
    rw [List.map_map]
    apply List.map_congr_left
    intro c _
    rfl
  apply String.ext
  unfold String.join
  rw [strfoldl_data, h1, flatten_singletons]
  rfl

/-- C2 (amended): the indexed decode collects every key whose `parseInt` is a
    number — negative keys included, not only the non-negative ones the claim
    names — sorts them numerically (so "10" sorts after "2"), and concatenates
    the stored characters in that order.  For a map scattering a blob across
    keys that parse to exactly the blob's positions, in any insertion order,
    the reconstruction returns the blob itself; and whenever the blob parses to
    a value with a truthy name, the decoded result coincides with decoding the
    blob directly through the opaque-string branch (when no name is
    recoverable the two branches' fallbacks differ, so only this guarded form
    of "parses the result as the opaque-string case" holds). -/
theorem c2_indexed_reconstruction_amended
    (cs : List Char) (M : List (String × JsPrim)) (pname : Option JsValue) (v : JsValue)
    (hperm : M.map (fun q => (parseIntJS q.1, q.2)) ~
      cs.enum.map (fun q => (some ((q.1 : Nat) : Int), JsPrim.str (String.singleton q.2))))
    (hv : parseJson (String.mk cs) = some v)
    (hname : truthyF (v.getField "name") = true) :
    numericKeysOf M = M.map Prod.fst ∧
    reconstructFrom M = String.mk cs ∧
    decodeIndexed M pname = v ∧
    decodePlain (some (.prim (.str (String.mk cs)))) pname = v := by
  have hkeys : ∀ q ∈ M, (parseIntJS q.1).isSome = true := by
    intro q hq
    have hmem : (parseIntJS q.1, q.2) ∈
        cs.enum.map (fun r => (some ((r.1 : Nat) : Int), JsPrim.str (String.singleton r.2))) :=
      hperm.subset (List.mem_map_of_mem _ hq)
    obtain ⟨w, _, hw⟩ := List.mem_map.mp hmem
    have h1 : some ((w.1 : Nat) : Int) = parseIntJS q.1 := congrArg Prod.fst hw
    rw [← h1]
    rfl
  have hfilter : numericKeysOf M = M.map Prod.fst := by
    apply List.filter_eq_self.mpr
    intro k hk
    obtain ⟨q, hq, rfl⟩ := List.mem_map.mp hk
    exact hkeys q hq
  have hTn : (cs.enum.map (fun r => ((r.1 : Nat) : Int))).Nodup := by
    have h2 : cs.enum.map (fun r => ((r.1 : Nat) : Int)) =
        (List.range cs.length).map (fun n : Nat => (n : Int)) := by
      rw [← List.enum_map_fst cs, List.map_map]
      rfl
    rw [h2]
    exact (List.nodup_range _).map Nat.cast_injective
  have hMn : (M.map Prod.fst).Nodup := by
    have h2 : M.map (fun q => parseIntJS q.1) ~
        cs.enum.map (fun r => some ((r.1 : Nat) : Int)) := by
      have h3 := hperm.map Prod.fst
      simpa [List.map_map] using h3
    have h3 : (M.map (fun q => parseIntJS q.1)).Nodup := by
      rw [h2.nodup_iff]
      have h4 : cs.enum.map (fun r => some ((r.1 : Nat) : Int)) =
          (cs.enum.map (fun r => ((r.1 : Nat) : Int))).map some := by
        rw [List.map_map]
        rfl
      rw [h4]
      exact hTn.map (Option.some_injective _)
    have h5 : M.map (fun q => parseIntJS q.1) = (M.map Prod.fst).map parseIntJS := by
      rw [List.map_map]
      rfl
    exact List.Nodup.of_map parseIntJS (h5 ▸ h3)
  have hSperm : sortNumeric (M.map Prod.fst) ~ M.map Prod.fst := by
    unfold sortNumeric
    exact List.perm_insertionSort _ _
  have hSsorted : List.Pairwise (fun a b => keyVal a ≤ keyVal b)
      (sortNumeric (M.map Prod.fst)) := by
    unfold sortNumeric
    exact List.sorted_insertionSort _ _
  have e1 : (sortNumeric (M.map Prod.fst)).map (fun k => (keyVal k, lookVal M k)) ~
      cs.enum.map (fun r => (((r.1 : Nat) : Int), String.singleton r.2)) := by
    have p1 := hSperm.map (fun k => (keyVal k, lookVal M k))
    have p2 : (M.map Prod.fst).map (fun k => (keyVal k, lookVal M k)) =
        M.map (fun q => (keyVal q.1, jsPrimToString q.2)) := by
      rw [List.map_map]
      apply List.map_congr_left
      intro q hq
      have hl : List.lookup q.1 M = some q.2 :=
        lookup_of_nodup_keys M hMn (by rw [Prod.mk.eta]; exact hq)
      simp [lookVal, hl]
    have p3 : M.map (fun q => (keyVal q.1, jsPrimToString q.2)) ~
        cs.enum.map (fun r => (((r.1 : Nat) : Int), String.singleton r.2)) := by
      have p4 := hperm.map (fun z : Option Int × JsPrim => (z.1.getD 0, jsPrimToString z.2))
      simpa [List.map_map, keyVal, jsPrimToString, Function.comp] using p4
    rw [p2] at p1
    exact p1.trans p3
  have e2 : List.Pairwise (fun a b : Int × String => a.1 ≤ b.1)
      ((sortNumeric (M.map Prod.fst)).map (fun k => (keyVal k, lookVal M k))) :=
    hSsorted.map _ (fun _ _ h => h)
  have e3 : List.Pairwise (fun a b : Int × String => a.1 < b.1)
      ((sortNumeric (M.map Prod.fst)).map (fun k => (keyVal k, lookVal M k))) := by
    have hnfst : (((sortNumeric (M.map Prod.fst)).map
        (fun k => (keyVal k, lookVal M k))).map Prod.fst).Nodup := by
      rw [(e1.map Prod.fst).nodup_iff]
      have h6 : (cs.enum.map
          (fun r => (((r.1 : Nat) : Int), String.singleton r.2))).map Prod.fst =
          cs.enum.map (fun r => ((r.1 : Nat) : Int)) := by
        rw [List.map_map]
        rfl
      rw [h6]
      exact hTn
    have hne := List.pairwise_map.mp hnfst
    exact (e2.and hne).imp (fun h => lt_of_le_of_ne h.1 h.2)
  have e5 : List.Pairwise (fun a b : Int × String => a.1 < b.1)
      (cs.enum.map (fun r => (((r.1 : Nat) : Int), String.singleton r.2))) := by
    apply List.pairwise_map.mpr
    have h5 : List.Pairwise (· < ·) (cs.enum.map Prod.fst) := by
      rw [List.enum_map_fst]
      exact List.pairwise_lt_range _
    have h6 := List.pairwise_map.mp h5
    exact h6.imp (fun h => by simp only []; exact_mod_cast h)
  haveI : IsAntisymm (Int × String) (fun a b => a.1 < b.1) :=
    ⟨fun a b h1 h2 => absurd (h1.trans h2) (lt_irrefl _)⟩
  have e6 : (sortNumeric (M.map Prod.fst)).map (fun k => (keyVal k, lookVal M k)) =
      cs.enum.map (fun r => (((r.1 : Nat) : Int), String.singleton r.2)) :=
    List.eq_of_perm_of_sorted e1 e3 e5
  have hrec : reconstructFrom M = String.mk cs := by
    unfold reconstructFrom
    rw [hfilter]
    have h7 : (sortNumeric (M.map Prod.fst)).map (lookVal M) =
        ((sortNumeric (M.map Prod.fst)).map
          (fun k => (keyVal k, lookVal M k))).map Prod.snd := by
      rw [List.map_map]
      rfl
    have h8 : (cs.enum.map
        (fun r : Nat × Char => (((r.1 : Nat) : Int), String.singleton r.2))).map Prod.snd =
        cs.map String.singleton := by
      rw [List.map_map]
      have h9 : (Prod.snd ∘ fun r : Nat × Char => (((r.1 : Nat) : Int), String.singleton r.2)) =
          (String.singleton ∘ Prod.snd) := rfl
      rw [h9, ← List.map_map, List.enum_map_snd]
    rw [h7, e6, h8]
    exact join_singletons cs
  obtain ⟨fs', rfl⟩ : ∃ fs', v = .obj fs' := by
    cases v with
    | obj fs' => exact ⟨fs', rfl⟩
    | prim q => simp [JsValue.getField, truthyF] at hname
  have hdec : decodeIndexed M pname = .obj fs' := by
    unfold decodeIndexed
    rw [hrec, hv]
    simp
  have hplain : decodePlain (some (.prim (.str (String.mk cs)))) pname = .obj fs' := by
    have hne : String.mk cs ≠ "" := by
      intro h0
      rw [h0, show parseJson "" = none from by decide] at hv
      exact Option.noConfusion hv
    have htr : JsValue.truthy (.prim (.str (String.mk cs))) = true := by
      simp [JsValue.truthy, truthyPrim, hne]
    have hEn : ensureNamed (.obj fs') pname = .obj fs' := by
      have h10 : truthyF (List.lookup "name" fs') = true := by
        simpa [JsValue.getField] using hname
      simp [ensureNamed, h10]
    simp [decodePlain, htr, hv, hEn]
  exact ⟨hfilter, hrec, hdec, hplain⟩

/-- The scattered map of the C2 witness: the characters of the blob
    `\x7b"name":"A"\x7d` stored under the keys "0"–"11", inserted in reversed
    key order. -/
def c2map : List (String × JsPrim) :=
  [("11", .str "\x7d"), ("10", .str "\""), ("9", .str "A"), ("8", .str "\""),
   ("7", .str ":"), ("6", .str "\""), ("5", .str "e"), ("4", .str "m"),
   ("3", .str "a"), ("2", .str "n"), ("1", .str "\""), ("0", .str "\x7b")]

/-- The blob of the C2 witness. -/
def c2blob : List Char := "\x7b\"name\":\"A\"\x7d".toList

/-- C2 witness at a concrete input. -/
theorem c2_witness :
    numericKeysOf c2map = c2map.map Prod.fst ∧
    reconstructFrom c2map = String.mk c2blob ∧
    decodeIndexed c2map none = .obj [("name", .str "A")] ∧
    decodePlain (some (.prim (.str (String.mk c2blob)))) none = .obj [("name", .str "A")] :=
  c2_indexed_reconstruction_amended c2blob c2map none (.obj [("name", .str "A")])
    (by decide) (by decide) (by decide)

end Hiker
